import Mathlib

/-!
Verification of the incident-list component of the DLP corporate messenger
frontend.  The component fetches incident payloads from a backend, normalizes
heterogeneous payload shapes into canonical incident records, keeps them in a
store together with an error slot, a selection set and a sort configuration,
and derives a sorted view.

The JavaScript source is shallowly embedded: JS values are modelled by the
inductive type `Value`, objects by association lists with distinct keys
(JS objects cannot carry duplicate keys), exceptions by `Except String`.
-/

/-- A JavaScript value, as far as the incident-list code observes it:
`null`, `undefined`, booleans, numbers (the payload values relevant here are
integral), strings, arrays and plain objects. -/
inductive Value where
  | vNull
  | vUndef
  | vBool (b : Bool)
  | vNum (n : Int)
  | vStr (s : String)
  | vArr (elems : List Value)
  | vObj (fields : List (String × Value))

namespace Value

mutual

/-- Decidable equality on `Value` (written out by hand because the automatic
derivation does not handle the nested lists). -/
def decEq : (a b : Value) → Decidable (a = b)
  | .vNull, .vNull => isTrue rfl
  | .vNull, .vUndef => isFalse nofun
  | .vNull, .vBool _ => isFalse nofun
  | .vNull, .vNum _ => isFalse nofun
  | .vNull, .vStr _ => isFalse nofun
  | .vNull, .vArr _ => isFalse nofun
  | .vNull, .vObj _ => isFalse nofun
  | .vUndef, .vNull => isFalse nofun
  | .vUndef, .vUndef => isTrue rfl
  | .vUndef, .vBool _ => isFalse nofun
  | .vUndef, .vNum _ => isFalse nofun
  | .vUndef, .vStr _ => isFalse nofun
  | .vUndef, .vArr _ => isFalse nofun
  | .vUndef, .vObj _ => isFalse nofun
  | .vBool _, .vNull => isFalse nofun
  | .vBool _, .vUndef => isFalse nofun
  | .vBool a, .vBool b =>
    match instDecidableEqBool a b with
    | isTrue h => isTrue (h ▸ rfl)
    | isFalse h => isFalse (fun e => h (Value.vBool.inj e))
  | .vBool _, .vNum _ => isFalse nofun
  | .vBool _, .vStr _ => isFalse nofun
  | .vBool _, .vArr _ => isFalse nofun
  | .vBool _, .vObj _ => isFalse nofun
  | .vNum _, .vNull => isFalse nofun
  | .vNum _, .vUndef => isFalse nofun
  | .vNum _, .vBool _ => isFalse nofun
  | .vNum a, .vNum b =>
    match Int.decEq a b with
    | isTrue h => isTrue (h ▸ rfl)
    | isFalse h => isFalse (fun e => h (Value.vNum.inj e))
  | .vNum _, .vStr _ => isFalse nofun
  | .vNum _, .vArr _ => isFalse nofun
  | .vNum _, .vObj _ => isFalse nofun
  | .vStr _, .vNull => isFalse nofun
  | .vStr _, .vUndef => isFalse nofun
  | .vStr _, .vBool _ => isFalse nofun
  | .vStr _, .vNum _ => isFalse nofun
  | .vStr a, .vStr b =>
    match String.decEq a b with
    | isTrue h => isTrue (h ▸ rfl)
    | isFalse h => isFalse (fun e => h (Value.vStr.inj e))
  | .vStr _, .vArr _ => isFalse nofun
  | .vStr _, .vObj _ => isFalse nofun
  | .vArr _, .vNull => isFalse nofun
  | .vArr _, .vUndef => isFalse nofun
  | .vArr _, .vBool _ => isFalse nofun
  | .vArr _, .vNum _ => isFalse nofun
  | .vArr _, .vStr _ => isFalse nofun
  | .vArr xs, .vArr ys =>
    match decEqList xs ys with
    | isTrue h => isTrue (h ▸ rfl)
    | isFalse h => isFalse (fun e => h (Value.vArr.inj e))
  | .vArr _, .vObj _ => isFalse nofun
  | .vObj _, .vNull => isFalse nofun
  | .vObj _, .vUndef => isFalse nofun
  | .vObj _, .vBool _ => isFalse nofun
  | .vObj _, .vNum _ => isFalse nofun
  | .vObj _, .vStr _ => isFalse nofun
  | .vObj _, .vArr _ => isFalse nofun
  | .vObj xs, .vObj ys =>
    match decEqFields xs ys with
    | isTrue h => isTrue (h ▸ rfl)
    | isFalse h => isFalse (fun e => h (Value.vObj.inj e))

/-- Decidable equality for lists of values. -/
def decEqList : (xs ys : List Value) → Decidable (xs = ys)
  | [], [] => isTrue rfl
  | [], _ :: _ => isFalse nofun
  | _ :: _, [] => isFalse nofun
  | x :: xs, y :: ys =>
    match decEq x y with
    | isTrue h1 =>
      match decEqList xs ys with
      | isTrue h2 => isTrue (h1 ▸ h2 ▸ rfl)
      | isFalse h2 => isFalse (fun e => h2 (List.cons.inj e).2)
    | isFalse h1 => isFalse (fun e => h1 (List.cons.inj e).1)

/-- Decidable equality for object field lists. -/
def decEqFields : (xs ys : List (String × Value)) → Decidable (xs = ys)
  | [], [] => isTrue rfl
  | [], _ :: _ => isFalse nofun
  | _ :: _, [] => isFalse nofun
  | (k, v) :: xs, (l, w) :: ys =>
    match String.decEq k l with
    | isTrue hk =>
      match decEq v w with
      | isTrue hv =>
        match decEqFields xs ys with
        | isTrue ht => isTrue (hk ▸ hv ▸ ht ▸ rfl)
        | isFalse ht => isFalse (fun e => ht (List.cons.inj e).2)
      | isFalse hv =>
        isFalse (fun e => hv (congrArg Prod.snd (List.cons.inj e).1))
    | isFalse hk =>
      isFalse (fun e => hk (congrArg Prod.fst (List.cons.inj e).1))

end

instance : DecidableEq Value := decEq

end Value

open Value

/-- JavaScript truthiness: `null`, `undefined`, `false`, `0` and `""` are
falsy; every array and object is truthy. -/
def truthy : Value → Bool
  | vNull => false
  | vUndef => false
  | vBool b => b
  | vNum n => n != 0
  | vStr s => !s.isEmpty
  | vArr _ => true
  | vObj _ => true

/-- `Array.isArray`. -/
def isArrB : Value → Bool
  | vArr _ => true
  | _ => false

/-- Is the value `null` or `undefined` (the values on which property access
throws a `TypeError`)? -/
def isNullishB : Value → Bool
  | vNull => true
  | vUndef => true
  | _ => false

/-- Is the value a string? -/
def isStrB : Value → Bool
  | vStr _ => true
  | _ => false

/-- Property access `v[k]`: throws a `TypeError` on `null`/`undefined`,
returns the field of an object (or `undefined` when absent), and `undefined`
on the remaining values (none of the field names the component reads is an
own property of a primitive or of an array). -/
def getField : Value → String → Except String Value
  | vNull, _ => .error "TypeError"
  | vUndef, _ => .error "TypeError"
  | vObj kvs, k => .ok ((List.lookup k kvs).getD vUndef)
  | _, _ => .ok vUndef

/-- Total variant of property access, used by the derived sorted view, which
is only ever applied to normalized records (always objects, on which
`getField` never throws). -/
def jsGetD (v : Value) (k : String) : Value :=
  match v with
  | vObj kvs => (List.lookup k kvs).getD vUndef
  | _ => vUndef

/-- `Object.values` for the non-nullish values that can reach it in
`fetchIncidents` (arrays were already peeled off, and a nullish payload threw
on the preceding property access). -/
def objValues : Value → List Value
  | vObj kvs => kvs.map Prod.snd
  | vArr xs => xs
  | vStr s => s.toList.map (fun c => vStr (String.mk [c]))
  | _ => []

/-- The element list of an array value (only used under an `isArrB` guard). -/
def toElems : Value → List Value
  | vArr xs => xs
  | _ => []

/-- The field-priority resolution `e[k1] || e[k2] || ... || dflt` used by the
normalizer: the first truthy candidate wins, otherwise the default. -/
def resolve (e : Value) : List String → Value → Except String Value
  | [], dflt => .ok dflt
  | k :: ks, dflt => do
    let v ← getField e k
    if truthy v then .ok v else resolve e ks dflt

/-- Insertion into an object literal under construction: an existing key is
updated in place, a new key is appended (JS object-literal semantics, where a
spread assigns each source field in order). -/
def objInsert : List (String × Value) → String × Value → List (String × Value)
  | [], p => [p]
  | (k', v') :: t, (k, v) => if k' = k then (k, v) :: t else (k', v') :: objInsert t (k, v)

/-- The fields contributed by spreading a value into an object literal:
objects contribute their fields, strings and arrays contribute index/element
pairs, primitives contribute nothing. -/
def spreadPairs : Value → List (String × Value)
  | vObj kvs => kvs
  | vStr s => (s.toList.enum.map (fun p => (toString p.1, vStr (String.mk [p.2]))))
  | vArr xs => (xs.enum.map (fun p => (toString p.1, p.2)))
  | _ => []

/-- Spread `...e` applied on top of the already-built fields `base`. -/
def spreadInto (base : List (String × Value)) (e : Value) : List (String × Value) :=
  (spreadPairs e).foldl objInsert base

/-- One step of the `formattedIncidents` mapping (part_002 lines 51-60).
`randId` stands for the fresh `Math.random().toString(36).substr(2, 9)`
identifier and `now` for `new Date().toISOString()`; both are parameters
because they are the only impure inputs of the mapping. -/
def format (randId now : String) (e : Value) : Except String Value := do
  let idv ← resolve e ["id", "_id"] (vStr randId)
  let ts ← resolve e ["timestamp", "date", "created_at"] (vStr now)
  let ity ← resolve e ["incident_type", "type", "category"] (vStr "Unknown")
  let uid ← resolve e ["user_id", "user", "employee_id"] (vStr "N/A")
  let pf ← resolve e ["platform", "source", "channel"] (vStr "Unknown")
  let act ← resolve e ["action", "response"] (vStr "NOTIFY")
  .ok (vObj (spreadInto
    [("id", idv), ("timestamp", ts), ("incident_type", ity),
     ("user_id", uid), ("platform", pf), ("action", act)] e))

/-- Payload shape extraction (part_002 lines 26-46): a bare array is used as
is; otherwise the wrapper keys `incidents`, `data`, `results` are probed in
order (each must hold a truthy array); otherwise `Object.values` of the
payload is used.  `Object.values` always returns an array, so the final
`isArray` guard of the source never fires. -/
def extractIncidents (p : Value) : Except String (List Value) :=
  match p with
  | vArr xs => .ok xs
  | _ => do
    let vi ← getField p "incidents"
    if truthy vi && isArrB vi then .ok (toElems vi)
    else
      let vd ← getField p "data"
      if truthy vd && isArrB vd then .ok (toElems vd)
      else
        let vr ← getField p "results"
        if truthy vr && isArrB vr then .ok (toElems vr)
        else .ok (objValues p)

/-- `incidentsData.map(incident => ...)`, with the index threaded through so
that every entry receives its own fresh random identifier and timestamp. -/
def normalizeEntries (rnd now : Nat → String) : Nat → List Value → Except String (List Value)
  | _, [] => .ok []
  | i, e :: t => do
    let r ← format (rnd i) (now i) e
    let rs ← normalizeEntries rnd now (i + 1) t
    .ok (r :: rs)

/-- Full normalization of one successfully fetched payload: shape extraction
followed by the per-entry formatting map. -/
def normalizePayload (rnd now : Nat → String) (p : Value) : Except String (List Value) := do
  let es ← extractIncidents p
  normalizeEntries rnd now 0 es

/-- Field lookup on a normalized record. -/
def recLookup (rec : Value) (k : String) : Option Value :=
  match rec with
  | vObj kvs => List.lookup k kvs
  | _ => none

/-- One digit of a decimal numeral. -/
def dig (c : Char) : Option Nat :=
  if c.isDigit then some (c.toNat - 48) else none

/-- Range checks and order-preserving encoding of a calendar timestamp. -/
def mkDateKey (y mo d h mi se ms : Nat) : Option Int :=
  if 1 ≤ mo ∧ mo ≤ 12 ∧ 1 ≤ d ∧ d ≤ 31 ∧ h ≤ 23 ∧ mi ≤ 59 ∧ se ≤ 59 then
    some (Int.ofNat ((((((y * 13 + mo) * 32 + d) * 24 + h) * 60 + mi) * 60 + se) * 1000 + ms))
  else none

/-- The optional tail of an ISO timestamp after the seconds: nothing, `Z`,
`.mmm`, or `.mmmZ`. -/
def parseIsoTail : List Char → Option Nat
  | [] => some 0
  | ['Z'] => some 0
  | ['.', a, b, c] => do pure (100 * (← dig a) + 10 * (← dig b) + (← dig c))
  | ['.', a, b, c, 'Z'] => do pure (100 * (← dig a) + 10 * (← dig b) + (← dig c))
  | _ => none

/-- Modelled from the spec: the built-in `new Date(string)`/`getTime` pair is
not part of the repository, so timestamp parsing is modelled as an
order-preserving encoding of the ISO-8601 grammar `YYYY-MM-DD` /
`YYYY-MM-DDTHH:MM:SS(.mmm)?Z?` that the spec assumes for backend timestamps;
any string outside the grammar is the model's invalid date (`NaN`,
i.e. `none`). -/
def parseIsoDate (s : String) : Option Int :=
  match s.toList with
  | [y1, y2, y3, y4, '-', m1, m2, '-', d1, d2] => do
    mkDateKey (1000 * (← dig y1) + 100 * (← dig y2) + 10 * (← dig y3) + (← dig y4))
      (10 * (← dig m1) + (← dig m2)) (10 * (← dig d1) + (← dig d2)) 0 0 0 0
  | y1 :: y2 :: y3 :: y4 :: '-' :: m1 :: m2 :: '-' :: d1 :: d2 :: 'T' ::
      h1 :: h2 :: ':' :: n1 :: n2 :: ':' :: s1 :: s2 :: rest => do
    mkDateKey (1000 * (← dig y1) + 100 * (← dig y2) + 10 * (← dig y3) + (← dig y4))
      (10 * (← dig m1) + (← dig m2)) (10 * (← dig d1) + (← dig d2))
      (10 * (← dig h1) + (← dig h2)) (10 * (← dig n1) + (← dig n2))
      (10 * (← dig s1) + (← dig s2)) (← parseIsoTail rest)
  | _ => none

/-- The time value of `new Date(aValue)` in the timestamp comparator, where
the source first replaces a nullish `aValue` by `''` (which parses as an
invalid date).  Strings go through the date grammar, numbers and booleans are
taken as numeric time values, everything else is invalid. -/
def dateKeyOf : Value → Option Int
  | vStr s => parseIsoDate s
  | vNum n => some n
  | vBool b => some (if b then 1 else 0)
  | _ => none

/-- The value returned by the sort comparator of `sortedIncidents` on the
`timestamp` key (part_002 lines 99-116): `dateA - dateB` for ascending,
`dateB - dateA` for descending.  When either date is invalid the subtraction
is `NaN`, which `Array.prototype.sort` treats as `0` (a tie) — hence the
`0` in the catch-all branch. -/
def tsCmp (direction : String) (a b : Value) : Int :=
  match dateKeyOf (jsGetD a "timestamp"), dateKeyOf (jsGetD b "timestamp") with
  | some x, some y => if direction = "asc" then x - y else y - x
  | _, _ => 0

/-- The derived sorted view for `sortConfig.key = 'timestamp'` (the only key
the claims exercise; the source comparator has further branches for string
keys, which use locale-aware comparison).  `Array.prototype.sort` is required
to be stable, so it is embedded as a stable insertion sort over the comparator
relation `tsCmp ≤ 0`. -/
def sortedIncidentsTs (direction : String) (l : List Value) : List Value :=
  List.insertionSort (fun a b => tsCmp direction a b ≤ 0) l

/-- The sort configuration state `{ key, direction }`. -/
structure SortConfig where
  key : String
  direction : String
  deriving DecidableEq

/-- The component state that the claims are about: the incident list, the
loading flag, the error slot, the selection set and the sort configuration.
The selection is a JS `Set`, embedded as a `Finset` (membership by value
equality, as with `SameValueZero`). -/
structure StoreState where
  incidents : List Value
  loading : Bool
  error : Option Value
  selectedIncidents : Finset Value
  sortConfig : SortConfig
  deriving DecidableEq

/-- The data of a caught axios error: `err.response?.data?.message` (already
drilled through the optional chain, `undefined` when any link is missing) and
`err.message`. -/
structure FetchErr where
  responseDataMessage : Value
  message : Value
  deriving DecidableEq

/-- The message recorded by the catch branch:
`err.response?.data?.message || err.message || 'Ошибка загрузки данных'`. -/
def errMessageOf (e : FetchErr) : Value :=
  if truthy e.responseDataMessage then e.responseDataMessage
  else if truthy e.message then e.message
  else vStr "Ошибка загрузки данных"

/-- The outcome of one fetch: a payload on HTTP success, or a transport
error. -/
inductive FetchResult where
  | success (payload : Value)
  | failure (err : FetchErr)

/-- One completed `fetchIncidents` call applied to the store state
(part_002 lines 13-70).  On success the snapshot is replaced wholesale and
the error cleared; if normalization itself throws, the thrown `TypeError`
reaches the same catch branch and only the error message is recorded; on
transport failure only the error message is recorded.  The `finally` clause
clears `loading` on every path.  Selection and sort config are never
touched. -/
def fetchStep (rnd now : Nat → String) (s : StoreState) (r : FetchResult) : StoreState :=
  match r with
  | .success payload =>
    match normalizePayload rnd now payload with
    | .ok recs => { s with incidents := recs, error := none, loading := false }
    | .error m => { s with error := some (vStr m), loading := false }
  | .failure err => { s with error := some (errMessageOf err), loading := false }

/-- `toggleIncidentSelection` (part_002 lines 139-147): copy the set, delete
the id if present, add it otherwise. -/
def toggleIncidentSelection (s : StoreState) (id : Value) : StoreState :=
  if id ∈ s.selectedIncidents then
    { s with selectedIncidents := s.selectedIncidents.erase id }
  else
    { s with selectedIncidents := insert id s.selectedIncidents }

/-- `incidents.map(inc => inc.id)` over a list of incident records (throws
if an incident is nullish). -/
def mapGetId : List Value → Except String (List Value)
  | [] => .ok []
  | v :: t => do
    let i ← getField v "id"
    let is ← mapGetId t
    .ok (i :: is)

/-- The id list of the store's incidents. -/
def incidentIds (s : StoreState) : Except String (List Value) :=
  mapGetId s.incidents

/-- `toggleSelectAll` (part_002 lines 149-155): clear the selection when its
size equals the number of incidents and the list is nonempty, otherwise
select the ids of all incidents. -/
def toggleSelectAll (s : StoreState) : Except String StoreState :=
  if s.selectedIncidents.card = s.incidents.length ∧ 0 < s.incidents.length then
    .ok { s with selectedIncidents := ∅ }
  else do
    let ids ← incidentIds s
    .ok { s with selectedIncidents := ids.toFinset }

/-! ### Concrete instances and auxiliary definitions used by the theorems -/

/-- A fixed synthesized-identifier supply, standing in for the
`Math.random()` calls of concrete evaluations. -/
def rnd0 : Nat → String := fun _ => "rndid"

/-- A fixed clock, standing in for `new Date().toISOString()` in concrete
evaluations. -/
def now0 : Nat → String := fun _ => "2025-01-01T00:00:00.000Z"

/-- The example payload `{results:[{_id:7, date:"2024-01-01T00:00:00Z"}]}`. -/
def payloadC2 : Value :=
  vObj [("results", vArr [vObj [("_id", vNum 7), ("date", vStr "2024-01-01T00:00:00Z")]])]

/-- The canonical record produced for `payloadC2`. -/
def recC2 : Value :=
  vObj [("id", vNum 7), ("timestamp", vStr "2024-01-01T00:00:00Z"),
        ("incident_type", vStr "Unknown"), ("user_id", vStr "N/A"),
        ("platform", vStr "Unknown"), ("action", vStr "NOTIFY"),
        ("_id", vNum 7), ("date", vStr "2024-01-01T00:00:00Z")]

/-- The record produced for the raw entry `{incident_type: null}` (with the
fixed identifier/clock supplies `rnd0`/`now0`). -/
def recC1 : Value :=
  vObj [("id", vStr "rndid"), ("timestamp", vStr "2025-01-01T00:00:00.000Z"),
        ("incident_type", vNull), ("user_id", vStr "N/A"),
        ("platform", vStr "Unknown"), ("action", vStr "NOTIFY")]

/-- The fully-defaulted record produced for a raw entry with none of the
recognized fields (with the supplies `rnd0`/`now0`). -/
def recDefault : Value :=
  vObj [("id", vStr "rndid"), ("timestamp", vStr "2025-01-01T00:00:00.000Z"),
        ("incident_type", vStr "Unknown"), ("user_id", vStr "N/A"),
        ("platform", vStr "Unknown"), ("action", vStr "NOTIFY")]

/-- The six canonical keys written by the formatting object literal, in
literal order. -/
def canonKeys : List String :=
  ["id", "timestamp", "incident_type", "user_id", "platform", "action"]

/-- The value the *last* occurrence of a key in a field list would leave
behind; spreading assigns fields in order, so this is what a spread
contributes for that key. -/
def lookupLast (l : List (String × Value)) (k : String) : Option Value :=
  match l with
  | [] => none
  | p :: t => (lookupLast t k).or (if p.1 = k then some p.2 else none)

/-- The shape invariant of every normalized record's field list: keys are
distinct and begin with the six canonical keys in literal order. -/
def FmtShape (l : List (String × Value)) : Prop :=
  (l.map Prod.fst).Nodup ∧ ∃ t, l.map Prod.fst = canonKeys ++ t

/-- The pure value of the field-priority resolution on an object entry. -/
def resolveVal (kvs : List (String × Value)) : List String → Value → Value
  | [], dflt => dflt
  | k :: ks, dflt =>
    let v := (List.lookup k kvs).getD vUndef
    if truthy v then v else resolveVal kvs ks dflt

/-- The parsed time key an incident contributes to the timestamp
comparator. -/
def tsKeyOf (a : Value) : Option Int :=
  dateKeyOf (jsGetD a "timestamp")

/-- The time key with invalid dates collapsed to `0` (only used to compare
records that all carry valid keys). -/
def keyD (a : Value) : Int :=
  (tsKeyOf a).getD 0

/-- An incident with a parsable timestamp. -/
def incValid : Value :=
  vObj [("id", vStr "a"), ("timestamp", vStr "2024-01-02T00:00:00Z")]

/-- An incident whose timestamp string is unparsable. -/
def incBad : Value :=
  vObj [("id", vStr "b"), ("timestamp", vStr "not-a-date")]

/-- A second incident with a parsable (earlier) timestamp. -/
def incValid2 : Value :=
  vObj [("id", vStr "c"), ("timestamp", vStr "2024-01-01T00:00:00Z")]

/-- A store holding one visible incident (id `1`) while a stale id `2` from
an earlier snapshot is still selected. -/
def storeC9 : StoreState :=
  { incidents := [vObj [("id", vNum 1)]], loading := false, error := none,
    selectedIncidents := {vNum 2}, sortConfig := ⟨"timestamp", "desc"⟩ }

/-- `storeC9` after its selection was cleared. -/
def storeC9A : StoreState :=
  { storeC9 with selectedIncidents := ∅ }

/-- `storeC9` with exactly the visible id selected. -/
def storeC9B : StoreState :=
  { storeC9 with selectedIncidents := {vNum 1} }

/-- A store holding one visible incident and an empty selection. -/
def storeW : StoreState :=
  { incidents := [vObj [("id", vNum 1)]], loading := false, error := none,
    selectedIncidents := ∅, sortConfig := ⟨"timestamp", "desc"⟩ }

/-- The record produced for the raw entry `{id: 0, foo: "bar"}` with
identifier supply `"r1"` and clock `"t1"` (the falsy upstream `id` falls
through the priority chain but is restored by the spread). -/
def recW : Value :=
  vObj [("id", vNum 0), ("timestamp", vStr "t1"),
        ("incident_type", vStr "Unknown"), ("user_id", vStr "N/A"),
        ("platform", vStr "Unknown"), ("action", vStr "NOTIFY"),
        ("foo", vStr "bar")]

/-! ### Association-list lemmas -/

theorem lookup_mem {k : String} {v : Value} :
    ∀ {l : List (String × Value)}, List.lookup k l = some v → (k, v) ∈ l := by
  intro l
  induction l with
  | nil => intro h; simp [List.lookup] at h
  | cons p t ih =>
    intro h
    obtain ⟨k', v'⟩ := p
    rw [List.lookup_cons] at h
    cases hk : (k == k') with
    | true =>
      rw [hk] at h
      simp only [Option.some.injEq] at h
      exact (beq_iff_eq.mp hk) ▸ h ▸ List.mem_cons_self _ _
    | false =>
      rw [hk] at h
      exact List.mem_cons_of_mem _ (ih h)

theorem lookup_eq_none_of_not_mem {k : String} :
    ∀ {l : List (String × Value)}, k ∉ l.map Prod.fst → List.lookup k l = none := by
  intro l
  induction l with
  | nil => intro _; rfl
  | cons p t ih =>
    intro h
    obtain ⟨k', v'⟩ := p
    simp only [List.map_cons, List.mem_cons, not_or] at h
    rw [List.lookup_cons]
    have : (k == k') = false := beq_eq_false_iff_ne.mpr h.1
    rw [this]
    exact ih h.2

theorem lookup_objInsert (k k' : String) (v : Value) :
    ∀ (l : List (String × Value)),
      List.lookup k' (objInsert l (k, v)) = if k' = k then some v else List.lookup k' l := by
  intro l
  induction l with
  | nil =>
    simp only [objInsert, List.lookup_cons, List.lookup_nil]
    by_cases h : k' = k
    · simp [h]
    · simp [h, beq_eq_false_iff_ne.mpr h]
  | cons p t ih =>
    obtain ⟨k0, v0⟩ := p
    simp only [objInsert]
    by_cases h0 : k0 = k
    · subst h0
      by_cases h : k' = k0
      · simp [h, List.lookup_cons]
      · simp [h, List.lookup_cons, beq_eq_false_iff_ne.mpr h]
    · rw [if_neg h0]
      by_cases h : k' = k0
      · subst h
        rw [if_neg h0]
        simp [List.lookup_cons]
      · simp only [List.lookup_cons, beq_eq_false_iff_ne.mpr h]
        exact ih

theorem lookup_foldl_objInsert (k : String) :
    ∀ (l : List (String × Value)) (b : List (String × Value)),
      List.lookup k (l.foldl objInsert b) =
        (lookupLast l k).or (List.lookup k b) := by
  intro l
  induction l with
  | nil => intro b; simp [lookupLast]
  | cons p t ih =>
    intro b
    obtain ⟨k0, v0⟩ := p
    simp only [List.foldl_cons, lookupLast]
    rw [ih, lookup_objInsert]
    by_cases h : k = k0
    · subst h
      simp [Option.or_assoc]
    · rw [if_neg h, if_neg (fun e => h e.symm)]
      simp [Option.or_assoc]

theorem lookupLast_eq_none_of_not_mem {k : String} :
    ∀ {l : List (String × Value)}, k ∉ l.map Prod.fst → lookupLast l k = none := by
  intro l
  induction l with
  | nil => intro _; rfl
  | cons p t ih =>
    intro h
    simp only [List.map_cons, List.mem_cons, not_or] at h
    simp only [lookupLast, ih h.2, Option.none_or]
    rw [if_neg (fun e => h.1 e.symm)]

theorem lookupLast_eq_lookup_of_nodup {k : String} :
    ∀ {l : List (String × Value)}, (l.map Prod.fst).Nodup →
      lookupLast l k = List.lookup k l := by
  intro l
  induction l with
  | nil => intro _; rfl
  | cons p t ih =>
    intro h
    obtain ⟨k0, v0⟩ := p
    simp only [List.map_cons, List.nodup_cons] at h
    simp only [lookupLast, List.lookup_cons, ih h.2]
    by_cases hk : k = k0
    · subst hk
      rw [lookup_eq_none_of_not_mem h.1, beq_self_eq_true]
      simp
    · rw [beq_eq_false_iff_ne.mpr hk, if_neg (fun e => hk e.symm)]
      simp

theorem objInsert_append_of_not_mem {k : String} (v : Value) :
    ∀ {l : List (String × Value)}, k ∉ l.map Prod.fst →
      objInsert l (k, v) = l ++ [(k, v)] := by
  intro l
  induction l with
  | nil => intro _; rfl
  | cons p t ih =>
    intro h
    obtain ⟨k0, v0⟩ := p
    simp only [List.map_cons, List.mem_cons, not_or] at h
    simp only [objInsert, List.cons_append]
    rw [if_neg (fun e => h.1 e.symm), ih h.2]

theorem objInsert_map_fst_of_mem {k : String} (v : Value) :
    ∀ {l : List (String × Value)}, k ∈ l.map Prod.fst →
      (objInsert l (k, v)).map Prod.fst = l.map Prod.fst := by
  intro l
  induction l with
  | nil => intro h; simp at h
  | cons p t ih =>
    intro h
    obtain ⟨k0, v0⟩ := p
    simp only [objInsert]
    by_cases h0 : k0 = k
    · simp [h0]
    · simp only [List.map_cons, List.mem_cons] at h
      rcases h with h | h
    
      · exact absurd h.symm h0
      · rw [if_neg h0]
        simp [ih h]

theorem foldl_objInsert_cons_of_not_mem (k : String) (v : Value) :
    ∀ (c : List (String × Value)) (b : List (String × Value)),
      (∀ p ∈ c, p.1 ≠ k) →
      List.foldl objInsert ((k, v) :: b) c = (k, v) :: List.foldl objInsert b c := by
  intro c
  induction c with
  | nil => intro b _; rfl
  | cons q t ih =>
    intro b h
    obtain ⟨k1, v1⟩ := q
    have hk1 : k1 ≠ k := h (k1, v1) (List.mem_cons_self _ _)
    simp only [List.foldl_cons, objInsert]
    rw [if_neg (fun e => hk1 e.symm)]
    exact ih _ (fun p hp => h p (List.mem_cons_of_mem _ hp))

theorem foldl_objInsert_same_keys :
    ∀ (c b : List (String × Value)),
      b.map Prod.fst = c.map Prod.fst → (c.map Prod.fst).Nodup →
      List.foldl objInsert b c = c := by
  intro c
  induction c with
  | nil =>
    intro b hb _
    simp only [List.map_nil, List.map_eq_nil_iff] at hb
    simp [hb]
  | cons q t ih =>
    intro b hb hnd
    obtain ⟨k, v⟩ := q
    cases b with
    | nil => simp at hb
    | cons p b' =>
      obtain ⟨k0, w⟩ := p
      simp only [List.map_cons, List.cons.injEq] at hb
      obtain ⟨hk, hb'⟩ := hb
      subst hk
      simp only [List.map_cons, List.nodup_cons] at hnd
      simp only [List.foldl_cons]
      have hins : objInsert ((k0, w) :: b') (k0, v) = (k0, v) :: b' := by
        simp [objInsert]
      rw [hins]
      rw [foldl_objInsert_cons_of_not_mem _ _ _ _
        (fun p hp he => hnd.1 (by rw [← he]; exact List.mem_map_of_mem Prod.fst hp))]
      rw [ih b' hb' hnd.2]

theorem foldl_objInsert_append_disjoint :
    ∀ (c : List (String × Value)) (b : List (String × Value)),
      (∀ p ∈ c, p.1 ∉ b.map Prod.fst) → (c.map Prod.fst).Nodup →
      List.foldl objInsert b c = b ++ c := by
  intro c
  induction c with
  | nil => intro b _ _; simp
  | cons q t ih =>
    intro b h hnd
    obtain ⟨k, v⟩ := q
    simp only [List.map_cons, List.nodup_cons] at hnd
    simp only [List.foldl_cons]
    rw [objInsert_append_of_not_mem _ (h (k, v) (List.mem_cons_self _ _))]
    rw [ih (b ++ [(k, v)]) ?disj hnd.2]
    · simp
    case disj =>
      intro p hp
      simp only [List.map_append, List.map_cons, List.map_nil, List.mem_append,
        List.mem_singleton, not_or]
      exact ⟨h p (List.mem_cons_of_mem _ hp),
        fun e => hnd.1 (by rw [← e]; exact List.mem_map_of_mem Prod.fst hp)⟩

/-! ### Shape of normalized records -/

theorem fmtShape_objInsert {l : List (String × Value)} (p : String × Value)
    (h : FmtShape l) : FmtShape (objInsert l p) := by
  obtain ⟨k, v⟩ := p
  obtain ⟨hnd, t, ht⟩ := h
  by_cases hk : k ∈ l.map Prod.fst
  · exact ⟨by rw [objInsert_map_fst_of_mem v hk]; exact hnd,
      t, by rw [objInsert_map_fst_of_mem v hk]; exact ht⟩
  · refine ⟨?_, t ++ [k], ?_⟩
    · rw [objInsert_append_of_not_mem v hk]
      simp only [List.map_append, List.map_cons, List.map_nil]
      rw [List.nodup_append]
      exact ⟨hnd, List.nodup_singleton k,
        fun a ha hb => hk (by rwa [List.mem_singleton.mp hb] at ha)⟩
    · rw [objInsert_append_of_not_mem v hk]
      simp only [List.map_append, List.map_cons, List.map_nil, ht, List.append_assoc]

theorem fmtShape_foldl :
    ∀ (c : List (String × Value)) {b : List (String × Value)}, FmtShape b →
      FmtShape (List.foldl objInsert b c) := by
  intro c
  induction c with
  | nil => intro b h; exact h
  | cons p t ih =>
    intro b h
    exact ih (fmtShape_objInsert p h)

theorem fmtShape_spreadInto (e : Value) (w1 w2 w3 w4 w5 w6 : Value) :
    FmtShape (spreadInto
      [("id", w1), ("timestamp", w2), ("incident_type", w3),
       ("user_id", w4), ("platform", w5), ("action", w6)] e) := by
  refine fmtShape_foldl _ ⟨?_, [], ?_⟩
  · show canonKeys.Nodup
    decide
  · show canonKeys = canonKeys ++ []
    simp

theorem spreadInto_of_fmtShape {l : List (String × Value)} (h : FmtShape l)
    (w1 w2 w3 w4 w5 w6 : Value) :
    spreadInto
      [("id", w1), ("timestamp", w2), ("incident_type", w3),
       ("user_id", w4), ("platform", w5), ("action", w6)] (vObj l) = l := by
  obtain ⟨hnd, t, ht⟩ := h
  have htake : (l.take 6).map Prod.fst = canonKeys := by
    rw [List.map_take, ht]
    exact List.take_left canonKeys t
  have hdrop : (l.drop 6).map Prod.fst = t := by
    rw [List.map_drop, ht]
    exact List.drop_left canonKeys t
  have hnd' : canonKeys.Nodup ∧ t.Nodup ∧ canonKeys.Disjoint t := by
    rw [ht, List.nodup_append] at hnd
    exact hnd
  show List.foldl objInsert _ (spreadPairs (vObj l)) = l
  have hsp : spreadPairs (vObj l) = l := rfl
  rw [hsp]
  conv_lhs => rw [← List.take_append_drop 6 l]
  rw [List.foldl_append]
  rw [foldl_objInsert_same_keys (l.take 6) _ (by rw [htake]; rfl)
    (by rw [htake]; decide)]
  rw [foldl_objInsert_append_disjoint (l.drop 6) (l.take 6) ?disj ?nd]
  · exact List.take_append_drop 6 l
  case disj =>
    intro p hp
    rw [htake]
    intro hmem
    exact hnd'.2.2 hmem (hdrop ▸ List.mem_map_of_mem Prod.fst hp)
  case nd =>
    rw [hdrop]
    exact hnd'.2.1

/-! ### Resolution and formatting lemmas -/

theorem resolve_obj (kvs : List (String × Value)) (dflt : Value) :
    ∀ (ks : List String),
      resolve (vObj kvs) ks dflt = .ok (resolveVal kvs ks dflt) := by
  intro ks
  induction ks with
  | nil => rfl
  | cons k ks ih =>
    show (if truthy ((List.lookup k kvs).getD vUndef)
        then Except.ok ((List.lookup k kvs).getD vUndef)
        else resolve (vObj kvs) ks dflt) = _
    simp only [resolveVal]
    by_cases h : truthy ((List.lookup k kvs).getD vUndef)
    · simp [h]
    · simp [h, ih]

theorem getField_ok {e : Value} (hne : isNullishB e = false) (k : String) :
    ∃ v, getField e k = .ok v := by
  cases e <;> simp [getField] <;> simp [isNullishB] at hne

theorem resolve_ok {e : Value} (hne : isNullishB e = false) (dflt : Value) :
    ∀ (ks : List String), ∃ v, resolve e ks dflt = .ok v := by
  intro ks
  induction ks with
  | nil => exact ⟨dflt, rfl⟩
  | cons k ks ih =>
    obtain ⟨w, hw⟩ := getField_ok hne k
    obtain ⟨v, hv⟩ := ih
    show ∃ u, (getField e k >>= fun x =>
      if truthy x then Except.ok x else resolve e ks dflt) = Except.ok u
    rw [hw]
    show ∃ u, (if truthy w then Except.ok w else resolve e ks dflt) = Except.ok u
    by_cases h : truthy w
    · exact ⟨w, by rw [if_pos h]⟩
    · exact ⟨v, by rw [if_neg h]; exact hv⟩

theorem format_obj (rid now : String) (kvs : List (String × Value)) :
    format rid now (vObj kvs) = .ok (vObj (spreadInto
      [("id", resolveVal kvs ["id", "_id"] (vStr rid)),
       ("timestamp", resolveVal kvs ["timestamp", "date", "created_at"] (vStr now)),
       ("incident_type", resolveVal kvs ["incident_type", "type", "category"] (vStr "Unknown")),
       ("user_id", resolveVal kvs ["user_id", "user", "employee_id"] (vStr "N/A")),
       ("platform", resolveVal kvs ["platform", "source", "channel"] (vStr "Unknown")),
       ("action", resolveVal kvs ["action", "response"] (vStr "NOTIFY"))] (vObj kvs))) := by
  show (resolve (vObj kvs) ["id", "_id"] (vStr rid) >>= fun idv => _) = _
  rw [resolve_obj]
  show (resolve (vObj kvs) ["timestamp", "date", "created_at"] (vStr now) >>= fun ts => _) = _
  rw [resolve_obj]
  show (resolve (vObj kvs) ["incident_type", "type", "category"] (vStr "Unknown") >>= fun ity => _) = _
  rw [resolve_obj]
  show (resolve (vObj kvs) ["user_id", "user", "employee_id"] (vStr "N/A") >>= fun uid => _) = _
  rw [resolve_obj]
  show (resolve (vObj kvs) ["platform", "source", "channel"] (vStr "Unknown") >>= fun pf => _) = _
  rw [resolve_obj]
  show (resolve (vObj kvs) ["action", "response"] (vStr "NOTIFY") >>= fun act => _) = _
  rw [resolve_obj]
  rfl

theorem format_error_of_nullish (rid now : String) {e : Value}
    (h : isNullishB e = true) : format rid now e = .error "TypeError" := by
  cases e <;> first | rfl | simp [isNullishB] at h

theorem format_eq_of_resolves {rid now : String} {e : Value}
    {w1 w2 w3 w4 w5 w6 : Value}
    (h1 : resolve e ["id", "_id"] (vStr rid) = .ok w1)
    (h2 : resolve e ["timestamp", "date", "created_at"] (vStr now) = .ok w2)
    (h3 : resolve e ["incident_type", "type", "category"] (vStr "Unknown") = .ok w3)
    (h4 : resolve e ["user_id", "user", "employee_id"] (vStr "N/A") = .ok w4)
    (h5 : resolve e ["platform", "source", "channel"] (vStr "Unknown") = .ok w5)
    (h6 : resolve e ["action", "response"] (vStr "NOTIFY") = .ok w6) :
    format rid now e = .ok (vObj (spreadInto
      [("id", w1), ("timestamp", w2), ("incident_type", w3),
       ("user_id", w4), ("platform", w5), ("action", w6)] e)) := by
  show (resolve e ["id", "_id"] (vStr rid) >>= fun idv => _) = _
  rw [h1]
  show (resolve e ["timestamp", "date", "created_at"] (vStr now) >>= fun ts => _) = _
  rw [h2]
  show (resolve e ["incident_type", "type", "category"] (vStr "Unknown") >>= fun ity => _) = _
  rw [h3]
  show (resolve e ["user_id", "user", "employee_id"] (vStr "N/A") >>= fun uid => _) = _
  rw [h4]
  show (resolve e ["platform", "source", "channel"] (vStr "Unknown") >>= fun pf => _) = _
  rw [h5]
  show (resolve e ["action", "response"] (vStr "NOTIFY") >>= fun act => _) = _
  rw [h6]
  rfl

theorem format_shape {rid now : String} {e rec : Value}
    (h : format rid now e = .ok rec) : ∃ l, rec = vObj l ∧ FmtShape l := by
  by_cases hn : isNullishB e = true
  · rw [format_error_of_nullish rid now hn] at h
    exact absurd h (by simp)
  · have hne : isNullishB e = false := by simpa using hn
    obtain ⟨w1, h1⟩ := resolve_ok hne (vStr rid) ["id", "_id"]
    obtain ⟨w2, h2⟩ := resolve_ok hne (vStr now) ["timestamp", "date", "created_at"]
    obtain ⟨w3, h3⟩ := resolve_ok hne (vStr "Unknown") ["incident_type", "type", "category"]
    obtain ⟨w4, h4⟩ := resolve_ok hne (vStr "N/A") ["user_id", "user", "employee_id"]
    obtain ⟨w5, h5⟩ := resolve_ok hne (vStr "Unknown") ["platform", "source", "channel"]
    obtain ⟨w6, h6⟩ := resolve_ok hne (vStr "NOTIFY") ["action", "response"]
    rw [format_eq_of_resolves h1 h2 h3 h4 h5 h6] at h
    exact ⟨_, (Except.ok.inj h).symm, fmtShape_spreadInto e w1 w2 w3 w4 w5 w6⟩

theorem except_bind_ok {α β : Type} (a : α) (f : α → Except String β) :
    (Except.ok a >>= f) = f a := rfl

theorem isStrB_iff {v : Value} : isStrB v = true ↔ ∃ s, v = vStr s := by
  cases v <;> simp [isStrB]

theorem resolveVal_isStr {kvs : List (String × Value)} {d : String} :
    ∀ {ks : List String},
      (∀ k ∈ ks, ∀ v, List.lookup k kvs = some v → isStrB v = true) →
      isStrB (resolveVal kvs ks (vStr d)) = true := by
  intro ks
  induction ks with
  | nil => intro _; rfl
  | cons k ks ih =>
    intro h
    simp only [resolveVal]
    cases hl : List.lookup k kvs with
    | none =>
      simp only [hl, Option.getD_none]
      rw [if_neg (by simp [truthy])]
      exact ih (fun k' hk' => h k' (List.mem_cons_of_mem _ hk'))
    | some v =>
      obtain ⟨s, hs⟩ := isStrB_iff.mp (h k (List.mem_cons_self _ _) v hl)
      subst hs
      simp only [hl, Option.getD_some]
      by_cases ht : truthy (vStr s)
      · rw [if_pos ht]; rfl
      · rw [if_neg ht]
        exact ih (fun k' hk' => h k' (List.mem_cons_of_mem _ hk'))

theorem resolveVal_default {kvs : List (String × Value)} {d : Value} :
    ∀ {ks : List String}, (∀ k ∈ ks, List.lookup k kvs = none) →
      resolveVal kvs ks d = d := by
  intro ks
  induction ks with
  | nil => intro _; rfl
  | cons k ks ih =>
    intro h
    simp only [resolveVal, h k (List.mem_cons_self _ _), Option.getD_none]
    rw [if_neg (by simp [truthy])]
    exact ih (fun k' hk' => h k' (List.mem_cons_of_mem _ hk'))

theorem lookup_spreadInto {kvs base : List (String × Value)}
    (hnodup : (kvs.map Prod.fst).Nodup) (k : String) :
    List.lookup k (spreadInto base (vObj kvs)) =
      (List.lookup k kvs).or (List.lookup k base) := by
  show List.lookup k (List.foldl objInsert base kvs) = _
  rw [lookup_foldl_objInsert, lookupLast_eq_lookup_of_nodup hnodup]

theorem extract_wrap_incidents (es : List Value) :
    extractIncidents (vObj [("incidents", vArr es)]) = .ok es := rfl

theorem extract_wrap_data (es : List Value) :
    extractIncidents (vObj [("data", vArr es)]) = .ok es := rfl

theorem extract_wrap_results (es : List Value) :
    extractIncidents (vObj [("results", vArr es)]) = .ok es := rfl

theorem extract_obj_values {kvs : List (String × Value)}
    (hwrap : ∀ p ∈ kvs, p.1 = "incidents" ∨ p.1 = "data" ∨ p.1 = "results" →
      isArrB p.2 = false) :
    extractIncidents (vObj kvs) = .ok (kvs.map Prod.snd) := by
  have key : ∀ k : String, (k = "incidents" ∨ k = "data" ∨ k = "results") →
      (truthy ((List.lookup k kvs).getD vUndef) &&
        isArrB ((List.lookup k kvs).getD vUndef)) = false := by
    intro k hk
    cases hl : List.lookup k kvs with
    | none => rfl
    | some v =>
      have hv := hwrap (k, v) (lookup_mem hl) hk
      simp [hv]
  show (getField (vObj kvs) "incidents" >>= fun vi =>
    if truthy vi && isArrB vi then Except.ok (toElems vi) else _) = _
  rw [show getField (vObj kvs) "incidents" =
    .ok ((List.lookup "incidents" kvs).getD vUndef) from rfl, except_bind_ok]
  rw [if_neg (by rw [key "incidents" (Or.inl rfl)]; exact Bool.false_ne_true)]
  show (getField (vObj kvs) "data" >>= fun vd =>
    if truthy vd && isArrB vd then Except.ok (toElems vd) else _) = _
  rw [show getField (vObj kvs) "data" =
    .ok ((List.lookup "data" kvs).getD vUndef) from rfl, except_bind_ok]
  rw [if_neg (by rw [key "data" (Or.inr (Or.inl rfl))]; exact Bool.false_ne_true)]
  show (getField (vObj kvs) "results" >>= fun vr =>
    if truthy vr && isArrB vr then Except.ok (toElems vr) else Except.ok (objValues (vObj kvs))) = _
  rw [show getField (vObj kvs) "results" =
    .ok ((List.lookup "results" kvs).getD vUndef) from rfl, except_bind_ok]
  rw [if_neg (by rw [key "results" (Or.inr (Or.inr rfl))]; exact Bool.false_ne_true)]
  rfl

theorem format_ok {e : Value} (h : isNullishB e = false) (rid now : String) :
    ∃ r, format rid now e = .ok r := by
  obtain ⟨w1, h1⟩ := resolve_ok h (vStr rid) ["id", "_id"]
  obtain ⟨w2, h2⟩ := resolve_ok h (vStr now) ["timestamp", "date", "created_at"]
  obtain ⟨w3, h3⟩ := resolve_ok h (vStr "Unknown") ["incident_type", "type", "category"]
  obtain ⟨w4, h4⟩ := resolve_ok h (vStr "N/A") ["user_id", "user", "employee_id"]
  obtain ⟨w5, h5⟩ := resolve_ok h (vStr "Unknown") ["platform", "source", "channel"]
  obtain ⟨w6, h6⟩ := resolve_ok h (vStr "NOTIFY") ["action", "response"]
  exact ⟨_, format_eq_of_resolves h1 h2 h3 h4 h5 h6⟩

theorem normalizeEntries_ok {rnd now : Nat → String} :
    ∀ (es : List Value), (∀ e ∈ es, isNullishB e = false) → ∀ i,
      ∃ rs, normalizeEntries rnd now i es = .ok rs ∧ rs.length = es.length := by
  intro es
  induction es with
  | nil => intro _ i; exact ⟨[], rfl, rfl⟩
  | cons e t ih =>
    intro h i
    obtain ⟨r, hr⟩ := format_ok (h e (List.mem_cons_self _ _)) (rnd i) (now i)
    obtain ⟨rs, hrs, hlen⟩ := ih (fun x hx => h x (List.mem_cons_of_mem _ hx)) (i + 1)
    refine ⟨r :: rs, ?_, by simp [hlen]⟩
    show (format (rnd i) (now i) e >>= fun r => _) = _
    rw [hr, except_bind_ok]
    show (normalizeEntries rnd now (i + 1) t >>= fun rs => _) = _
    rw [hrs, except_bind_ok]

theorem mapGetId_ok_length :
    ∀ {l ys : List Value}, mapGetId l = .ok ys → ys.length = l.length := by
  intro l
  induction l with
  | nil =>
    intro ys h
    cases h
    rfl
  | cons v t ih =>
    intro ys h
    rw [show mapGetId (v :: t) =
      (getField v "id" >>= fun i => mapGetId t >>= fun is => Except.ok (i :: is)) from rfl] at h
    cases hv : getField v "id" with
    | error m => rw [hv] at h; exact Except.noConfusion h
    | ok i =>
      rw [hv, except_bind_ok] at h
      cases hmt : mapGetId t with
      | error m => rw [hmt] at h; exact Except.noConfusion h
      | ok is =>
        rw [hmt, except_bind_ok] at h
        cases h
        simp [ih hmt]

/-! ### Sorting lemmas -/

theorem orderedInsert_congr {α : Type} {r r' : α → α → Prop}
    [DecidableRel r] [DecidableRel r'] (a : α) :
    ∀ (s : List α), (∀ b ∈ s, r a b ↔ r' a b) →
      List.orderedInsert r a s = List.orderedInsert r' a s := by
  intro s
  induction s with
  | nil => intro _; rfl
  | cons b t ih =>
    intro h
    rw [List.orderedInsert, List.orderedInsert]
    by_cases hr : r a b
    · rw [if_pos hr, if_pos ((h b (List.mem_cons_self _ _)).mp hr)]
    · rw [if_neg hr, if_neg (fun hh => hr ((h b (List.mem_cons_self _ _)).mpr hh)),
        ih (fun x hx => h x (List.mem_cons_of_mem _ hx))]

theorem insertionSort_congr {α : Type} {r r' : α → α → Prop}
    [DecidableRel r] [DecidableRel r'] :
    ∀ (l : List α), (∀ a ∈ l, ∀ b ∈ l, r a b ↔ r' a b) →
      List.insertionSort r l = List.insertionSort r' l := by
  intro l
  induction l with
  | nil => intro _; rfl
  | cons a t ih =>
    intro h
    show List.orderedInsert r a (List.insertionSort r t) =
      List.orderedInsert r' a (List.insertionSort r' t)
    rw [ih (fun x hx y hy => h x (List.mem_cons_of_mem _ hx) y (List.mem_cons_of_mem _ hy))]
    apply orderedInsert_congr
    intro b hb
    have hb' : b ∈ t := (List.perm_insertionSort r' t).mem_iff.mp hb
    exact h a (List.mem_cons_self _ _) b (List.mem_cons_of_mem _ hb')

theorem insertionSort_desc_eq_reverse_asc {α : Type} (f : α → Int) (l : List α)
    (hdist : l.Pairwise (fun a b => f a ≠ f b)) :
    List.insertionSort (fun a b => f b ≤ f a) l =
      (List.insertionSort (fun a b => f a ≤ f b) l).reverse := by
  haveI : IsTotal α (fun a b => f a ≤ f b) := ⟨fun a b => le_total _ _⟩
  haveI : IsTrans α (fun a b => f a ≤ f b) := ⟨fun _ _ _ => le_trans⟩
  haveI : IsTotal α (fun a b => f b ≤ f a) := ⟨fun a b => le_total _ _⟩
  haveI : IsTrans α (fun a b => f b ≤ f a) := ⟨fun _ _ _ h1 h2 => le_trans h2 h1⟩
  have sA : (List.insertionSort (fun a b => f a ≤ f b) l).Pairwise (fun a b => f a ≤ f b) :=
    List.sorted_insertionSort _ l
  have sD : (List.insertionSort (fun a b => f b ≤ f a) l).Pairwise (fun a b => f b ≤ f a) :=
    List.sorted_insertionSort _ l
  have hsymm : ∀ {x y : α}, f x ≠ f y → f y ≠ f x := fun h => h.symm
  have pA : (List.insertionSort (fun a b => f a ≤ f b) l).Pairwise (fun a b => f a ≠ f b) :=
    ((List.perm_insertionSort _ l).pairwise_iff hsymm).mpr hdist
  have pD : (List.insertionSort (fun a b => f b ≤ f a) l).Pairwise (fun a b => f a ≠ f b) :=
    ((List.perm_insertionSort _ l).pairwise_iff hsymm).mpr hdist
  have strictD : (List.insertionSort (fun a b => f b ≤ f a) l).Pairwise
      (fun a b => f b < f a) :=
    (sD.and pD).imp (fun h => lt_of_le_of_ne h.1 h.2.symm)
  have strictA : (List.insertionSort (fun a b => f a ≤ f b) l).Pairwise
      (fun a b => f a < f b) :=
    (sA.and pA).imp (fun h => lt_of_le_of_ne h.1 h.2)
  have strictRev : ((List.insertionSort (fun a b => f a ≤ f b) l).reverse).Pairwise
      (fun a b => f b < f a) :=
    List.pairwise_reverse.mpr strictA
  have permDA : (List.insertionSort (fun a b => f b ≤ f a) l).Perm
      ((List.insertionSort (fun a b => f a ≤ f b) l).reverse) :=
    (List.perm_insertionSort _ l).trans
      ((List.perm_insertionSort _ l).symm.trans (List.reverse_perm _).symm)
  haveI : IsAntisymm α (fun a b => f b < f a) :=
    ⟨fun a b h1 h2 => absurd (lt_trans h1 h2) (lt_irrefl _)⟩
  exact List.eq_of_perm_of_sorted permDA strictD strictRev

theorem tsKeyOf_eq_some_keyD {a : Value} (h : (tsKeyOf a).isSome = true) :
    tsKeyOf a = some (keyD a) := by
  cases hk : tsKeyOf a with
  | none => rw [hk] at h; cases h
  | some x => simp [keyD, hk]

theorem tsCmp_le_iff_of_valid (dir : String) {a b : Value}
    (ha : (tsKeyOf a).isSome = true) (hb : (tsKeyOf b).isSome = true) :
    (tsCmp dir a b ≤ 0) ↔
      (if dir = "asc" then keyD a ≤ keyD b else keyD b ≤ keyD a) := by
  have hA := tsKeyOf_eq_some_keyD ha
  have hB := tsKeyOf_eq_some_keyD hb
  unfold tsCmp
  rw [show dateKeyOf (jsGetD a "timestamp") = tsKeyOf a from rfl,
    show dateKeyOf (jsGetD b "timestamp") = tsKeyOf b from rfl, hA, hB]
  by_cases hdir : dir = "asc"
  · subst hdir
    simp [sub_nonpos]
  · simp [hdir, sub_nonpos]

theorem extract_ok {p : Value} (h : isNullishB p = false) :
    ∃ es, extractIncidents p = .ok es := by
  cases p with
  | vNull => simp [isNullishB] at h
  | vUndef => simp [isNullishB] at h
  | vArr xs => exact ⟨xs, rfl⟩
  | vBool b => exact ⟨_, rfl⟩
  | vNum n => exact ⟨_, rfl⟩
  | vStr s => exact ⟨_, rfl⟩
  | vObj kvs =>
    show ∃ es, (getField (vObj kvs) "incidents" >>= fun vi =>
      if truthy vi && isArrB vi then Except.ok (toElems vi) else _) = .ok es
    rw [show getField (vObj kvs) "incidents" =
      .ok ((List.lookup "incidents" kvs).getD vUndef) from rfl, except_bind_ok]
    by_cases c1 : (truthy ((List.lookup "incidents" kvs).getD vUndef) &&
        isArrB ((List.lookup "incidents" kvs).getD vUndef)) = true
    · exact ⟨_, by rw [if_pos c1]⟩
    · rw [if_neg c1]
      show ∃ es, (getField (vObj kvs) "data" >>= fun vd =>
        if truthy vd && isArrB vd then Except.ok (toElems vd) else _) = .ok es
      rw [show getField (vObj kvs) "data" =
        .ok ((List.lookup "data" kvs).getD vUndef) from rfl, except_bind_ok]
      by_cases c2 : (truthy ((List.lookup "data" kvs).getD vUndef) &&
          isArrB ((List.lookup "data" kvs).getD vUndef)) = true
      · exact ⟨_, by rw [if_pos c2]⟩
      · rw [if_neg c2]
        show ∃ es, (getField (vObj kvs) "results" >>= fun vr =>
          if truthy vr && isArrB vr then Except.ok (toElems vr)
          else Except.ok (objValues (vObj kvs))) = .ok es
        rw [show getField (vObj kvs) "results" =
          .ok ((List.lookup "results" kvs).getD vUndef) from rfl, except_bind_ok]
        by_cases c3 : (truthy ((List.lookup "results" kvs).getD vUndef) &&
            isArrB ((List.lookup "results" kvs).getD vUndef)) = true
        · exact ⟨_, by rw [if_pos c3]⟩
        · exact ⟨_, by rw [if_neg c3]⟩

theorem format_field_or (rid now : String) (kvs : List (String × Value))
    (hnodup : (kvs.map Prod.fst).Nodup) (rec : Value)
    (hfmt : format rid now (vObj kvs) = .ok rec) :
    recLookup rec "incident_type" = (List.lookup "incident_type" kvs).or
      (some (resolveVal kvs ["incident_type", "type", "category"] (vStr "Unknown")))
    ∧ recLookup rec "user_id" = (List.lookup "user_id" kvs).or
      (some (resolveVal kvs ["user_id", "user", "employee_id"] (vStr "N/A")))
    ∧ recLookup rec "platform" = (List.lookup "platform" kvs).or
      (some (resolveVal kvs ["platform", "source", "channel"] (vStr "Unknown")))
    ∧ recLookup rec "action" = (List.lookup "action" kvs).or
      (some (resolveVal kvs ["action", "response"] (vStr "NOTIFY"))) := by
  rw [format_obj] at hfmt
  obtain rfl := (Except.ok.inj hfmt).symm
  refine ⟨?_, ?_, ?_, ?_⟩ <;>
  · show List.lookup _ (spreadInto _ (vObj kvs)) = _
    rw [lookup_spreadInto hnodup]
    rfl

/-! ### Claim theorems -/

/-- **C1** (counterexample): normalization of the raw entry
`{incident_type: null}` produces a record whose `incident_type` field is
`null`, not a string — the trailing `...incident` spread re-installs the
upstream `null` over the computed default, so the four canonical fields are
not always present as strings. -/
theorem normalize_null_field_counterexample :
    normalizePayload rnd0 now0 (vArr [vObj [("incident_type", vNull)]]) = .ok [recC1]
    ∧ recLookup recC1 "incident_type" = some vNull
    ∧ isStrB vNull = false :=
  ⟨rfl, rfl, rfl⟩

/-- **C1** (amended): for every raw object entry with distinct keys whose
values at the canonical field names and their alternates, where present, are
strings, the normalized record has `incident_type`, `user_id`, `platform` and
`action` present as strings; and when the entry lacks a canonical field and
every alternate name for it, the field holds its defined default
(`"Unknown"`, `"N/A"`, `"Unknown"`, `"NOTIFY"` respectively). -/
theorem normalized_fields_string (rid now : String) (kvs : List (String × Value))
    (rec : Value)
    (hnodup : (kvs.map Prod.fst).Nodup)
    (hgood : ∀ p ∈ kvs,
      p.1 ∈ ["incident_type", "type", "category", "user_id", "user", "employee_id",
             "platform", "source", "channel", "action", "response"] →
      isStrB p.2 = true)
    (hfmt : format rid now (vObj kvs) = .ok rec) :
    (∀ k ∈ ["incident_type", "user_id", "platform", "action"],
        ∃ s, recLookup rec k = some (vStr s))
    ∧ ((∀ k ∈ ["incident_type", "type", "category"], List.lookup k kvs = none) →
        recLookup rec "incident_type" = some (vStr "Unknown"))
    ∧ ((∀ k ∈ ["user_id", "user", "employee_id"], List.lookup k kvs = none) →
        recLookup rec "user_id" = some (vStr "N/A"))
    ∧ ((∀ k ∈ ["platform", "source", "channel"], List.lookup k kvs = none) →
        recLookup rec "platform" = some (vStr "Unknown"))
    ∧ ((∀ k ∈ ["action", "response"], List.lookup k kvs = none) →
        recLookup rec "action" = some (vStr "NOTIFY")) := by
  obtain ⟨hit, huid, hpf, hact⟩ := format_field_or rid now kvs hnodup rec hfmt
  have bigmem : ∀ k, k ∈ (["incident_type", "type", "category"] : List String) ∨
      k ∈ (["user_id", "user", "employee_id"] : List String) ∨
      k ∈ (["platform", "source", "channel"] : List String) ∨
      k ∈ (["action", "response"] : List String) →
      k ∈ (["incident_type", "type", "category", "user_id", "user", "employee_id",
            "platform", "source", "channel", "action", "response"] : List String) := by
    intro k hk
    simp only [List.mem_cons, List.not_mem_nil, or_false] at hk ⊢
    tauto
  have strAt : ∀ (alts : List String) (d : String) (field : String),
      (alts = ["incident_type", "type", "category"] ∨
       alts = ["user_id", "user", "employee_id"] ∨
       alts = ["platform", "source", "channel"] ∨
       alts = ["action", "response"]) →
      isStrB (resolveVal kvs alts (vStr d)) = true := by
    intro alts d field halts
    apply resolveVal_isStr
    intro k hk v hv
    apply hgood (k, v) (lookup_mem hv)
    apply bigmem
    rcases halts with rfl | rfl | rfl | rfl
    · exact Or.inl hk
    · exact Or.inr (Or.inl hk)
    · exact Or.inr (Or.inr (Or.inl hk))
    · exact Or.inr (Or.inr (Or.inr hk))
  have present : ∀ (field : String) (alts : List String) (d : String),
      recLookup rec field = (List.lookup field kvs).or
        (some (resolveVal kvs alts (vStr d))) →
      field ∈ (["incident_type", "type", "category", "user_id", "user", "employee_id",
            "platform", "source", "channel", "action", "response"] : List String) →
      isStrB (resolveVal kvs alts (vStr d)) = true →
      ∃ s, recLookup rec field = some (vStr s) := by
    intro field alts d heq hfield hstr
    rw [heq]
    cases hl : List.lookup field kvs with
    | none =>
      obtain ⟨s, hs⟩ := isStrB_iff.mp hstr
      refine ⟨s, ?_⟩
      rw [show (Option.none.or (some (resolveVal kvs alts (vStr d))) : Option Value) =
        some (resolveVal kvs alts (vStr d)) from rfl, hs]
    | some v =>
      obtain ⟨s, hs⟩ := isStrB_iff.mp (hgood (field, v) (lookup_mem hl) hfield)
      refine ⟨s, ?_⟩
      rw [show ((some v).or (some (resolveVal kvs alts (vStr d))) : Option Value) =
        some v from rfl]
      rw [show v = vStr s from hs]
  refine ⟨?_, ?_, ?_, ?_, ?_⟩
  · intro k hk
    simp only [List.mem_cons, List.not_mem_nil, or_false] at hk
    rcases hk with rfl | rfl | rfl | rfl
    · exact present _ _ _ hit (by simp) (strAt _ _ "incident_type" (Or.inl rfl))
    · exact present _ _ _ huid (by simp) (strAt _ _ "user_id" (Or.inr (Or.inl rfl)))
    · exact present _ _ _ hpf (by simp) (strAt _ _ "platform" (Or.inr (Or.inr (Or.inl rfl))))
    · exact present _ _ _ hact (by simp) (strAt _ _ "action" (Or.inr (Or.inr (Or.inr rfl))))
  · intro habs
    rw [hit, habs "incident_type" (by simp), Option.none_or,
      resolveVal_default (fun k hk => habs k hk)]
  · intro habs
    rw [huid, habs "user_id" (by simp), Option.none_or,
      resolveVal_default (fun k hk => habs k hk)]
  · intro habs
    rw [hpf, habs "platform" (by simp), Option.none_or,
      resolveVal_default (fun k hk => habs k hk)]
  · intro habs
    rw [hact, habs "action" (by simp), Option.none_or,
      resolveVal_default (fun k hk => habs k hk)]

/-- Witness for the amended C1: the empty object entry satisfies the
hypotheses and normalizes to the fully-defaulted record. -/
theorem normalized_fields_string_witness :
    (∃ s, recLookup recDefault "incident_type" = some (vStr s))
    ∧ recLookup recDefault "action" = some (vStr "NOTIFY") := by
  have h := normalized_fields_string "rndid" "2025-01-01T00:00:00.000Z" [] recDefault
    (by simp) (by simp) rfl
  exact ⟨h.1 "incident_type" (by simp), h.2.2.2.2 (by simp)⟩

/-- **C2**: the payload `{results:[{_id:7, date:"2024-01-01T00:00:00Z"}]}`
normalizes to exactly one incident record with `id = 7`,
`timestamp = "2024-01-01T00:00:00Z"`, `incident_type = "Unknown"`,
`user_id = "N/A"`, `platform = "Unknown"` and `action = "NOTIFY"` — each
canonical field is filled from the first populated candidate of its priority
list. -/
theorem normalize_results_example :
    normalizePayload rnd0 now0 payloadC2 = .ok [recC2]
    ∧ recLookup recC2 "id" = some (vNum 7)
    ∧ recLookup recC2 "timestamp" = some (vStr "2024-01-01T00:00:00Z")
    ∧ recLookup recC2 "incident_type" = some (vStr "Unknown")
    ∧ recLookup recC2 "user_id" = some (vStr "N/A")
    ∧ recLookup recC2 "platform" = some (vStr "Unknown")
    ∧ recLookup recC2 "action" = some (vStr "NOTIFY") :=
  ⟨rfl, rfl, rfl, rfl, rfl, rfl, rfl⟩

/-- **C3** (counterexample): for the single raw entry `[]` (an array used as
an entry), normalizing the bare array `[[]]` yields one fully-defaulted
record, while normalizing `{results: []}` — an object whose values are
exactly those entries — hits the `results` wrapper probe and yields no
records, so the payload shapes do not all agree. -/
theorem normalize_shape_counterexample :
    objValues (vObj [("results", vArr [])]) = [vArr []]
    ∧ normalizePayload rnd0 now0 (vArr [vArr []]) = .ok [recDefault]
    ∧ normalizePayload rnd0 now0 (vObj [("results", vArr [])]) = .ok []
    ∧ normalizePayload rnd0 now0 (vArr [vArr []]) ≠
        normalizePayload rnd0 now0 (vObj [("results", vArr [])]) := by
  refine ⟨rfl, rfl, rfl, ?_⟩
  intro hh
  rw [show normalizePayload rnd0 now0 (vArr [vArr []]) = .ok [recDefault] from rfl,
    show normalizePayload rnd0 now0 (vObj [("results", vArr [])]) = .ok [] from rfl] at hh
  simp at hh

/-- **C3** (amended): for every list of raw entries, the bare array and the
three wrapper shapes always normalize identically, and an arbitrary object
whose values are those entries also agrees provided none of the wrapper keys
`incidents`/`data`/`results` holds an array value (in particular whenever no
entry is an array). -/
theorem normalize_shape_independent (rnd now : Nat → String) (es : List Value)
    (kvs : List (String × Value))
    (hvals : kvs.map Prod.snd = es)
    (hkeys : (kvs.map Prod.fst).Nodup)
    (hwrap : ∀ p ∈ kvs, p.1 = "incidents" ∨ p.1 = "data" ∨ p.1 = "results" →
      isArrB p.2 = false) :
    normalizePayload rnd now (vObj [("incidents", vArr es)]) =
      normalizePayload rnd now (vArr es)
    ∧ normalizePayload rnd now (vObj [("data", vArr es)]) =
      normalizePayload rnd now (vArr es)
    ∧ normalizePayload rnd now (vObj [("results", vArr es)]) =
      normalizePayload rnd now (vArr es)
    ∧ normalizePayload rnd now (vObj kvs) = normalizePayload rnd now (vArr es) := by
  have base : ∀ (p : Value), extractIncidents p = .ok es →
      normalizePayload rnd now p = normalizeEntries rnd now 0 es := by
    intro p hp
    show (extractIncidents p >>= fun es => normalizeEntries rnd now 0 es) = _
    rw [hp, except_bind_ok]
  have hbare : normalizePayload rnd now (vArr es) = normalizeEntries rnd now 0 es :=
    base _ rfl
  refine ⟨?_, ?_, ?_, ?_⟩
  · rw [base _ (extract_wrap_incidents es), hbare]
  · rw [base _ (extract_wrap_data es), hbare]
  · rw [base _ (extract_wrap_results es), hbare]
  · rw [base _ (by rw [extract_obj_values hwrap, hvals]), hbare]

/-- Witness for the amended C3: one object entry, wrapped in each payload
shape and in the arbitrary object `{a: {...}}`, normalizes identically. -/
theorem normalize_shape_independent_witness :
    normalizePayload rnd0 now0 (vObj [("a", vObj [])]) =
      normalizePayload rnd0 now0 (vArr [vObj []]) :=
  (normalize_shape_independent rnd0 now0 [vObj []] [("a", vObj [])]
    rfl (by simp) (by intro p hp hk; fin_cases hp <;> simp_all)).2.2.2

/-- **C4** (counterexample): normalization is not total — a `null` payload
(and likewise a `null` entry inside an array payload) makes the property
access inside `fetchIncidents` throw a `TypeError`, which escapes to the
catch branch instead of yielding an empty sequence. -/
theorem normalize_throws_on_nullish :
    normalizePayload rnd0 now0 vNull = .error "TypeError"
    ∧ normalizePayload rnd0 now0 (vArr [vNull]) = .error "TypeError" :=
  ⟨rfl, rfl⟩

/-- **C4** (amended): for every payload other than `null`/`undefined`, shape
extraction never throws; if additionally every extracted entry is
non-nullish, full normalization succeeds and produces one record per entry;
and an empty object payload or empty array payload normalizes to the empty
sequence. -/
theorem normalize_total_of_nonnullish (rnd now : Nat → String) (p : Value)
    (h : isNullishB p = false) :
    (∃ es, extractIncidents p = .ok es
      ∧ ((∀ e ∈ es, isNullishB e = false) →
          ∃ recs, normalizePayload rnd now p = .ok recs ∧ recs.length = es.length))
    ∧ normalizePayload rnd now (vObj []) = .ok []
    ∧ normalizePayload rnd now (vArr []) = .ok [] := by
  refine ⟨?_, rfl, rfl⟩
  obtain ⟨es, hes⟩ := extract_ok h
  refine ⟨es, hes, fun hne => ?_⟩
  obtain ⟨rs, hrs, hlen⟩ := normalizeEntries_ok es hne 0
  refine ⟨rs, ?_, hlen⟩
  show (extractIncidents p >>= fun es => normalizeEntries rnd now 0 es) = _
  rw [hes, except_bind_ok, hrs]

/-- Witness for the amended C4: the payload `[{}]` is non-nullish, extraction
succeeds, and normalization yields exactly one record. -/
theorem normalize_total_of_nonnullish_witness :
    ∃ recs, normalizePayload rnd0 now0 (vArr [vObj []]) = .ok recs
      ∧ recs.length = 1 := by
  obtain ⟨es, hes, hrest⟩ := (normalize_total_of_nonnullish rnd0 now0
    (vArr [vObj []]) (by decide)).1
  have hes' : es = [vObj []] := by
    rw [show extractIncidents (vArr [vObj []]) = .ok [vObj []] from rfl] at hes
    exact (Except.ok.inj hes).symm
  subst hes'
  obtain ⟨recs, hrecs, hlen⟩ := hrest (by decide)
  exact ⟨recs, hrecs, hlen⟩

/-- **C5**: when a poll fails, the incident list is left exactly as it was,
the selection set and sort configuration are unchanged, and the error message
is recorded — in particular, a failure after a successful poll of 8 incidents
leaves those 8 incidents in the store rather than an empty list. -/
theorem fetchStep_failure_preserves_state (rnd now : Nat → String)
    (s : StoreState) (err : FetchErr) :
    (fetchStep rnd now s (.failure err)).incidents = s.incidents
    ∧ (fetchStep rnd now s (.failure err)).selectedIncidents = s.selectedIncidents
    ∧ (fetchStep rnd now s (.failure err)).sortConfig = s.sortConfig
    ∧ (fetchStep rnd now s (.failure err)).error = some (errMessageOf err) :=
  ⟨rfl, rfl, rfl, rfl⟩

/-- **C6** (code evaluated at the failing input): the incident `incBad` has
an unparsable timestamp while `incValid` has a valid one, yet the timestamp
comparator returns `NaN` (treated as `0`, a tie) for the pair, so sorting
`[incValid, incBad]` in either direction leaves the unparsable record *after*
the valid one — it is not ordered as the oldest possible value before every
valid timestamp, contrary to the claim. -/
theorem sort_unparsable_timestamp_ties :
    tsKeyOf incBad = none
    ∧ (tsKeyOf incValid).isSome = true
    ∧ tsCmp "asc" incValid incBad = 0
    ∧ tsCmp "desc" incValid incBad = 0
    ∧ sortedIncidentsTs "asc" [incValid, incBad] = [incValid, incBad]
    ∧ sortedIncidentsTs "desc" [incValid, incBad] = [incValid, incBad]
    ∧ ([incValid, incBad] : List Value) ≠ [incBad, incValid] := by
  decide

/-- **C7** (counterexample): the incidents `incBad` (unparsable timestamp)
and `incValid` have unequal timestamp keys, yet the descending view of
`[incBad, incValid]` is not the reverse of the ascending view — the `NaN`
tie keeps both orders equal to the input. -/
theorem sort_desc_not_reverse_counterexample :
    jsGetD incBad "timestamp" ≠ jsGetD incValid "timestamp"
    ∧ tsKeyOf incBad ≠ tsKeyOf incValid
    ∧ sortedIncidentsTs "desc" [incBad, incValid] ≠
        (sortedIncidentsTs "asc" [incBad, incValid]).reverse := by
  decide

/-- **C7** (amended): for every incident list in which every timestamp
parses and no two incidents have equal parsed timestamp keys, the view
sorted by timestamp descending is exactly the reverse of the view sorted by
timestamp ascending. -/
theorem sort_desc_reverse_of_asc (l : List Value)
    (hvalid : ∀ a ∈ l, (tsKeyOf a).isSome = true)
    (hdist : l.Pairwise (fun a b => tsKeyOf a ≠ tsKeyOf b)) :
    sortedIncidentsTs "desc" l = (sortedIncidentsTs "asc" l).reverse := by
  have hdistK : l.Pairwise (fun a b => keyD a ≠ keyD b) := by
    refine List.Pairwise.imp_of_mem ?_ hdist
    intro a b ha hb hne heq
    exact hne (by
      rw [tsKeyOf_eq_some_keyD (hvalid _ ha), tsKeyOf_eq_some_keyD (hvalid _ hb), heq])
  have hA : sortedIncidentsTs "asc" l =
      List.insertionSort (fun a b => keyD a ≤ keyD b) l := by
    unfold sortedIncidentsTs
    apply insertionSort_congr
    intro a ha b hb
    have := tsCmp_le_iff_of_valid "asc" (hvalid a ha) (hvalid b hb)
    simpa using this
  have hD : sortedIncidentsTs "desc" l =
      List.insertionSort (fun a b => keyD b ≤ keyD a) l := by
    unfold sortedIncidentsTs
    apply insertionSort_congr
    intro a ha b hb
    have := tsCmp_le_iff_of_valid "desc" (hvalid a ha) (hvalid b hb)
    simpa using this
  rw [hA, hD]
  exact insertionSort_desc_eq_reverse_asc keyD l hdistK

/-- Witness for the amended C7: two incidents with distinct valid timestamps
sort descending to exactly the reverse of the ascending view. -/
theorem sort_desc_reverse_of_asc_witness :
    sortedIncidentsTs "desc" [incValid, incValid2] =
      (sortedIncidentsTs "asc" [incValid, incValid2]).reverse :=
  sort_desc_reverse_of_asc [incValid, incValid2] (by decide) (by decide)

/-- **C8**: normalization is idempotent on its own output — reapplying the
formatting map (with any fresh identifier and clock) to a record it produced
returns that record unchanged, because the record already carries all six
canonical keys and the trailing spread restores every field. -/
theorem format_idempotent (rid now rid' now' : String) (e rec : Value)
    (h : format rid now e = .ok rec) : format rid' now' rec = .ok rec := by
  obtain ⟨l, rfl, hshape⟩ := format_shape h
  rw [format_obj]
  rw [spreadInto_of_fmtShape hshape]

/-- Witness for C8: the record of the entry `{id: 0, foo: "bar"}` is a fixed
point of the formatting map. -/
theorem format_idempotent_witness :
    format "r2" "t2" recW = Except.ok recW :=
  format_idempotent "r1" "t1" "r2" "t2"
    (vObj [("id", vNum 0), ("foo", vStr "bar")]) recW rfl

/-- **C9** (counterexample): with one visible incident (id `1`) and a stale
selection `{2}`, not every visible id is selected, yet `toggleSelectAll`
*clears* the selection (its size test `size === incidents.length` passes on
the stale id); and a second invocation then yields `{1}`, not the original
`{2}` — so neither conjunct of the claim holds as stated. -/
theorem toggleSelectAll_counterexample :
    storeC9.incidents = [vObj [("id", vNum 1)]]
    ∧ vNum 1 ∉ storeC9.selectedIncidents
    ∧ toggleSelectAll storeC9 = .ok storeC9A
    ∧ storeC9A.selectedIncidents = ∅
    ∧ toggleSelectAll storeC9A = .ok storeC9B
    ∧ storeC9B.selectedIncidents ≠ storeC9.selectedIncidents := by
  refine ⟨rfl, by decide, ?_, rfl, ?_, by decide⟩
  · show toggleSelectAll storeC9 = .ok storeC9A
    unfold toggleSelectAll
    rw [if_pos (by decide)]
    rfl
  · show toggleSelectAll storeC9A = .ok storeC9B
    unfold toggleSelectAll
    rw [if_neg (by decide)]
    show (incidentIds storeC9A >>= fun ids =>
      Except.ok { storeC9A with selectedIncidents := ids.toFinset }) = _
    rw [show incidentIds storeC9A = .ok [vNum 1] from rfl, except_bind_ok]
    show Except.ok { storeC9A with selectedIncidents := [vNum 1].toFinset } = _
    rw [show ([vNum 1].toFinset : Finset Value) = {vNum 1} from by decide]
    rfl

/-- **C9** (amended): `toggleSelectAll` clears the selection exactly when the
selection's *size* equals the number of incidents and the list is nonempty,
and otherwise replaces the selection with the set of all visible ids; and
when the visible ids are distinct, the list is nonempty, and the current
selection is either empty or exactly the set of visible ids, two invocations
return the selection to its original state. -/
theorem toggleSelectAll_spec (s : StoreState) (ids : List Value)
    (hids : incidentIds s = .ok ids) :
    (s.selectedIncidents.card = s.incidents.length ∧ 0 < s.incidents.length →
      toggleSelectAll s = .ok { s with selectedIncidents := ∅ })
    ∧ (¬(s.selectedIncidents.card = s.incidents.length ∧ 0 < s.incidents.length) →
      toggleSelectAll s = .ok { s with selectedIncidents := ids.toFinset })
    ∧ (ids.Nodup → s.incidents ≠ [] →
      (s.selectedIncidents = ∅ ∨ s.selectedIncidents = ids.toFinset) →
      ∃ s1 s2, toggleSelectAll s = .ok s1 ∧ toggleSelectAll s1 = .ok s2 ∧
        s2.selectedIncidents = s.selectedIncidents ∧ s1.incidents = s.incidents) := by
  have hlen : ids.length = s.incidents.length := mapGetId_ok_length hids
  have hyes : s.selectedIncidents.card = s.incidents.length ∧ 0 < s.incidents.length →
      toggleSelectAll s = .ok { s with selectedIncidents := ∅ } := by
    intro h
    unfold toggleSelectAll
    rw [if_pos h]
  have hno : ¬(s.selectedIncidents.card = s.incidents.length ∧ 0 < s.incidents.length) →
      toggleSelectAll s = .ok { s with selectedIncidents := ids.toFinset } := by
    intro h
    unfold toggleSelectAll
    rw [if_neg h]
    show (incidentIds s >>= fun ids => _) = _
    rw [hids, except_bind_ok]
  refine ⟨hyes, hno, fun hnd hne hsel => ?_⟩
  have hpos : 0 < s.incidents.length := List.length_pos.mpr hne
  have hcard : ids.toFinset.card = s.incidents.length := by
    rw [List.toFinset_card_of_nodup hnd, hlen]
  rcases hsel with h0 | hfull
  · have hnotc : ¬(s.selectedIncidents.card = s.incidents.length ∧
        0 < s.incidents.length) := by
      rintro ⟨he, hp⟩
      rw [h0, Finset.card_empty] at he
      omega
    have h1 := hno hnotc
    have hc1 : ({ s with selectedIncidents := ids.toFinset } : StoreState).selectedIncidents.card =
        ({ s with selectedIncidents := ids.toFinset } : StoreState).incidents.length ∧
        0 < ({ s with selectedIncidents := ids.toFinset } : StoreState).incidents.length := by
      exact ⟨hcard, hpos⟩
    have h2 : toggleSelectAll { s with selectedIncidents := ids.toFinset } =
        .ok { s with selectedIncidents := ∅ } := by
      unfold toggleSelectAll
      rw [if_pos hc1]
    exact ⟨_, _, h1, h2, by rw [h0], rfl⟩
  · have hc : s.selectedIncidents.card = s.incidents.length ∧ 0 < s.incidents.length := by
      rw [hfull]
      exact ⟨hcard, hpos⟩
    have h1 := hyes hc
    have hnot1 : ¬(({ s with selectedIncidents := (∅ : Finset Value) } :
        StoreState).selectedIncidents.card =
        ({ s with selectedIncidents := (∅ : Finset Value) } : StoreState).incidents.length ∧
        0 < ({ s with selectedIncidents := (∅ : Finset Value) } :
          StoreState).incidents.length) := by
      rintro ⟨he, hp⟩
      rw [show (({ s with selectedIncidents := (∅ : Finset Value) } :
        StoreState)).selectedIncidents = (∅ : Finset Value) from rfl,
        Finset.card_empty] at he
      have : s.incidents.length = 0 := he.symm
      omega
    have h2 : toggleSelectAll { s with selectedIncidents := (∅ : Finset Value) } =
        .ok { s with selectedIncidents := ids.toFinset } := by
      unfold toggleSelectAll
      rw [if_neg hnot1]
      show (incidentIds { s with selectedIncidents := (∅ : Finset Value) } >>=
        fun ids => _) = _
      rw [show incidentIds { s with selectedIncidents := (∅ : Finset Value) } =
        .ok ids from hids, except_bind_ok]
    exact ⟨_, _, h1, h2, by rw [hfull], rfl⟩

/-- Witness for the amended C9: from an empty selection over one visible
incident, two invocations of `toggleSelectAll` return the selection to its
original state. -/
theorem toggleSelectAll_spec_witness :
    ∃ s1 s2, toggleSelectAll storeW = .ok s1 ∧ toggleSelectAll s1 = .ok s2 ∧
      s2.selectedIncidents = storeW.selectedIncidents ∧
      s1.incidents = storeW.incidents :=
  (toggleSelectAll_spec storeW [vNum 1] rfl).2.2 (by decide) (by decide) (Or.inl rfl)

/-- **C10**: toggling one id changes the membership of exactly that id —
every other id's membership is untouched, the toggled id's membership is
inverted — and toggling the same id twice restores the store exactly. -/
theorem toggleIncidentSelection_spec (s : StoreState) (id : Value) :
    (∀ j, j ≠ id → (j ∈ (toggleIncidentSelection s id).selectedIncidents ↔
        j ∈ s.selectedIncidents))
    ∧ (id ∈ (toggleIncidentSelection s id).selectedIncidents ↔
        id ∉ s.selectedIncidents)
    ∧ toggleIncidentSelection (toggleIncidentSelection s id) id = s := by
  obtain ⟨inc, ld, er, sel, sc⟩ := s
  by_cases h : id ∈ sel
  · have e1 : toggleIncidentSelection ⟨inc, ld, er, sel, sc⟩ id =
        ⟨inc, ld, er, sel.erase id, sc⟩ := by
      unfold toggleIncidentSelection
      rw [if_pos h]
    refine ⟨?_, ?_, ?_⟩
    · intro j hj
      rw [e1]
      show j ∈ sel.erase id ↔ j ∈ sel
      simp [Finset.mem_erase, hj]
    · rw [e1]
      show id ∈ sel.erase id ↔ id ∉ sel
      simp [Finset.not_mem_erase, h]
    · rw [e1]
      unfold toggleIncidentSelection
      rw [if_neg (show id ∉ sel.erase id from Finset.not_mem_erase _ _)]
      show StoreState.mk inc ld er (insert id (sel.erase id)) sc = ⟨inc, ld, er, sel, sc⟩
      rw [Finset.insert_erase h]
  · have e1 : toggleIncidentSelection ⟨inc, ld, er, sel, sc⟩ id =
        ⟨inc, ld, er, insert id sel, sc⟩ := by
      unfold toggleIncidentSelection
      rw [if_neg h]
    refine ⟨?_, ?_, ?_⟩
    · intro j hj
      rw [e1]
      show j ∈ insert id sel ↔ j ∈ sel
      simp [Finset.mem_insert, hj]
    · rw [e1]
      show id ∈ insert id sel ↔ id ∉ sel
      simp [Finset.mem_insert_self, h]
    · rw [e1]
      unfold toggleIncidentSelection
      rw [if_pos (show id ∈ insert id sel from Finset.mem_insert_self _ _)]
      show StoreState.mk inc ld er ((insert id sel).erase id) sc = ⟨inc, ld, er, sel, sc⟩
      rw [Finset.erase_insert h]

/-- Witness for C10: toggling id `1` in `storeC9` leaves id `2`'s membership
unchanged, adds id `1`, and a second toggle restores the store. -/
theorem toggleIncidentSelection_witness :
    (vNum 2 ∈ (toggleIncidentSelection storeC9 (vNum 1)).selectedIncidents ↔
      vNum 2 ∈ storeC9.selectedIncidents)
    ∧ (vNum 1 ∈ (toggleIncidentSelection storeC9 (vNum 1)).selectedIncidents ↔
      vNum 1 ∉ storeC9.selectedIncidents)
    ∧ toggleIncidentSelection (toggleIncidentSelection storeC9 (vNum 1)) (vNum 1) =
      storeC9 :=
  ⟨(toggleIncidentSelection_spec storeC9 (vNum 1)).1 (vNum 2) (by decide),
   (toggleIncidentSelection_spec storeC9 (vNum 1)).2.1,
   (toggleIncidentSelection_spec storeC9 (vNum 1)).2.2⟩
